import Mathlib

/-!
# gRPC file service: streaming transfer handlers and admission control

A shallow embedding of `internal/service/file_storage.go`,
`internal/server/server.go` and `internal/config/config.go`, followed by the
properties of the upload, download and list handlers.

Conventions of the embedding:

* a Go `[]byte` is a `List UInt8`; a Go `string` that travels in a protobuf
  field is a Lean `String` (proto3 strings are valid UTF-8, and the path
  separator is a single ASCII character);
* Go `int` is 64 bits wide: sums that can leave the range are wrapped
  explicitly with `wrapInt`;
* an inbound stream is the list of results that successive `Recv` calls
  return before `io.EOF`; the end of the list is `io.EOF`;
* every handler returns, next to its result, the trace of the mutex,
  semaphore and storage operations it performed.
-/

namespace FileService

/-! ## Basic types -/

abbrev Byte := UInt8
abbrev Bytes := List UInt8

/-- The gRPC status codes the handlers use. -/
inductive Code
  | Unknown
  | InvalidArgument
  | NotFound
  | Internal
  deriving DecidableEq, Repr

/-- The three admission classes, one semaphore each. -/
inductive OpClass
  | upload
  | download
  | list
  deriving DecidableEq, Repr

/-- Errors of the storage backend; `os.IsNotExist` tells the two apart. -/
inductive IOErr
  | notExist (msg : String)
  | other (msg : String)
  deriving DecidableEq, Repr

def IOErr.text : IOErr → String
  | .notExist m => m
  | .other m => m

def IOErr.IsNotExist : IOErr → Bool
  | .notExist _ => true
  | .other _ => false

/-- What a handler call ends with. `ok` is a `nil` error, `status` an error
built with `status.Error(f)`, `transport` an error of the stream returned
unchanged, `panicked` a run-time panic (the deferred release still runs) and
`diverged` a loop that did not finish within the given fuel. -/
inductive HandlerResult
  | ok
  | status (code : Code) (msg : String)
  | transport (err : String)
  | panicked
  | diverged
  deriving DecidableEq, Repr

/-- Observable operations on the shared mutex, the semaphores and the storage. -/
inductive Event
  | muLock
  | muUnlock
  | semAcquire (c : OpClass)
  | semRelease (c : OpClass)
  | saveFile (name : String) (data : Bytes)
  | getFile (name : String)
  | listFiles
  deriving DecidableEq, Repr

/-! ## `path/filepath` (Unix) -/

def IsPathSeparator (c : Char) : Bool := c == '/'

/-- Go `filepath.Base`: the last element of the path; trailing separators are
removed first; `"."` for the empty path and `"/"` for a path of separators. -/
def Base (path : String) : String :=
  if path = "" then "."
  else
    let stripped := path.data.reverse.dropWhile IsPathSeparator
    let last := (stripped.takeWhile (fun c => !IsPathSeparator c)).reverse
    if last = [] then "/" else String.mk last

/-- Splits a path at every separator (empty elements are kept). -/
def splitPath : List Char → List (List Char)
  | [] => [[]]
  | c :: cs =>
    if IsPathSeparator c then [] :: splitPath cs
    else
      match splitPath cs with
      | [] => [[c]]
      | e :: es => (c :: e) :: es

/-- The element pass of `filepath.Clean`: `out` holds the kept elements, last
one first. Empty and `.` elements are dropped, `..` removes the element before
it, is dropped at the root and is kept at the start of a relative path. -/
def cleanElems (rooted : Bool) : List (List Char) → List (List Char) → List (List Char)
  | [], out => out.reverse
  | e :: es, out =>
    if e = [] ∨ e = ['.'] then cleanElems rooted es out
    else if e = ['.', '.'] then
      match out with
      | [] => if rooted then cleanElems rooted es [] else cleanElems rooted es [e]
      | top :: rest =>
        if top = ['.', '.'] then cleanElems rooted es (e :: out)
        else cleanElems rooted es rest
    else cleanElems rooted es (e :: out)

def joinElems : List (List Char) → List Char
  | [] => []
  | [e] => e
  | e :: es => e ++ '/' :: joinElems es

/-- Go `filepath.Clean` (Unix): the shortest path equivalent by lexical
processing alone. -/
def Clean (path : String) : String :=
  if path = "" then "."
  else
    let rooted := path.data.head?.any IsPathSeparator
    let body := joinElems (cleanElems rooted (splitPath path.data) [])
    if rooted then String.mk ('/' :: body)
    else if body = [] then "." else String.mk body

/-- Go `filepath.Join` of two elements: empty elements before the first
non-empty one are ignored, the rest is joined with separators and cleaned. -/
def Join (a b : String) : String :=
  if a ≠ "" then Clean (a ++ "/" ++ b)
  else if b ≠ "" then Clean b
  else ""

/-- A cleaned path lies under the cleaned root when it is the root followed by
a separator and at least one more element. -/
def underRoot (root path : String) : Bool :=
  (root.data ++ ['/']).isPrefixOf path.data && decide ((root.data ++ ['/']).length < path.data.length)

/-! ## Storage interface (`internal/storage`) and the disk backend -/

structure FileInfo (τ : Type) where
  Name : String
  CreatedAt : τ
  UpdatedAt : τ

/-- The `storage.FileStorage` interface over a state `σ` of the backend. A
failed save may still have changed the state. -/
structure FileStorage (σ τ : Type) where
  SaveFile : σ → String → Bytes → σ × Option IOErr
  GetFile : σ → String → Except IOErr Bytes
  ListFiles : σ → Except IOErr (List (FileInfo τ))

/-- The operating-system calls the disk backend uses, over a file-system state. -/
structure OS (φ τ : Type) where
  WriteFile : φ → String → Bytes → φ × Option IOErr
  ReadFile : φ → String → Except IOErr Bytes
  ReadDir : φ → String → Except IOErr (List (FileInfo τ))

structure DiskStorage where
  storagePath : String

/-- The path `DiskStorage.SaveFile` and `DiskStorage.GetFile` hand to the OS. -/
def DiskStorage.filePath (s : DiskStorage) (filename : String) : String :=
  Join s.storagePath filename

def DiskStorage.SaveFile {φ τ : Type} (os : OS φ τ) (s : DiskStorage)
    (fsys : φ) (filename : String) (data : Bytes) : φ × Option IOErr :=
  os.WriteFile fsys (s.filePath filename) data

def DiskStorage.GetFile {φ τ : Type} (os : OS φ τ) (s : DiskStorage)
    (fsys : φ) (filename : String) : Except IOErr Bytes :=
  os.ReadFile fsys (s.filePath filename)

/-- In `DiskStorage.ListFiles` a missing directory is an empty list; `ReadDir`
here stands for the loop that keeps the regular files whose `Info` succeeds. -/
def DiskStorage.ListFiles {φ τ : Type} (os : OS φ τ) (s : DiskStorage)
    (fsys : φ) : Except IOErr (List (FileInfo τ)) :=
  match os.ReadDir fsys s.storagePath with
  | .ok files => .ok files
  | .error e => if e.IsNotExist then .ok [] else .error e

def DiskStorage.toFileStorage {φ τ : Type} (os : OS φ τ) (s : DiskStorage) :
    FileStorage φ τ where
  SaveFile := DiskStorage.SaveFile os s
  GetFile := DiskStorage.GetFile os s
  ListFiles := DiskStorage.ListFiles os s

/-- An in-memory backend: `get` returns what `save` last stored under a name. -/
def memStorage : FileStorage (String → Option Bytes) Unit where
  SaveFile := fun st name data => (fun n => if n = name then some data else st n, none)
  GetFile := fun st name =>
    match st name with
    | some d => .ok d
    | none => .error (.notExist name)
  ListFiles := fun _ => .ok []

/-! ## The service -/

structure Config where
  GRPCPort : String
  StoragePath : String
  UploadLimit : Int
  DownloadLimit : Int
  ListLimit : Int
  MaxChunkSize : Int

def NewDefaultConfig : Config where
  GRPCPort := ":50051"
  StoragePath := "files/files_server"
  UploadLimit := 10
  DownloadLimit := 10
  ListLimit := 100
  MaxChunkSize := 64 * 1024

/-- The capacities of the three semaphore channels and the chunk size. -/
structure FileStorageService where
  uploadCap : Nat
  downloadCap : Nat
  listCap : Nat
  maxChunkSize : Int
  deriving DecidableEq, Repr

/-- `make(chan struct{}, n)` panics for a negative `n`, so construction fails
then (`none`). -/
def NewFileStorageService (uploadLimit downloadLimit listLimit maxChunkSize : Int) :
    Option FileStorageService :=
  if uploadLimit < 0 ∨ downloadLimit < 0 ∨ listLimit < 0 then none
  else some ⟨uploadLimit.toNat, downloadLimit.toNat, listLimit.toNat, maxChunkSize⟩

def FileStorageService.cap (s : FileStorageService) : OpClass → Nat
  | .upload => s.uploadCap
  | .download => s.downloadCap
  | .list => s.listCap

/-- The scope of a handler: `mu.Lock(); sem <- struct{}{}; mu.Unlock()` on entry
and the deferred `<-sem` when the body has ended. A body that does not end
never reaches the deferred receive. -/
def withSlot (c : OpClass) (result : HandlerResult) (body : List Event) : List Event :=
  [.muLock, .semAcquire c, .muUnlock] ++ body ++
    (if result = .diverged then [] else [.semRelease c])

/-! ## UploadFile -/

/-- Modelled from the spec: the generated message `api.UploadRequest` is not
among the sources; it has the two fields the handler reads with `GetFilename`
and `GetChunk`, each empty when unset. -/
structure UploadRequest where
  filename : String
  chunk : Bytes
  deriving DecidableEq, Repr

/-- Modelled from the spec: the generated message `api.UploadResponse` is not
among the sources; the handler fills `Filename` and `Size`, the latter with a
`uint32`. -/
structure UploadResponse where
  Filename : String
  Size : Nat
  deriving DecidableEq, Repr

/-- One result of `stream.Recv()` other than `io.EOF`. -/
inductive RecvResult
  | msg (req : UploadRequest)
  | fail (err : String)
  deriving DecidableEq, Repr

/-- The receive loop of `UploadFile` from the state `(filename, data)`: either
an early return with a status or, at `io.EOF`, the final `(filename, data)`. -/
def uploadLoop : List RecvResult → String → Bytes → Except (Code × String) (String × Bytes)
  | [], filename, data => .ok (filename, data)
  | .fail err :: _, _, _ => .error (.Unknown, "cannot receive chunk: " ++ err)
  | .msg req :: rest, filename, data =>
    if filename = "" then
      if req.filename = "" then .error (.InvalidArgument, "filename cannot be empty")
      else uploadLoop rest (Base req.filename) (data ++ req.chunk)
    else uploadLoop rest filename (data ++ req.chunk)

/-- Conversion `uint32(n)` of a non-negative `int`. -/
def toUint32 (n : Nat) : Nat := n % 2 ^ 32

structure UploadOutcome (σ : Type) where
  result : HandlerResult
  response : Option UploadResponse
  store : σ
  events : List Event

/-- `FileStorageService.UploadFile`. `closeErr` is what `stream.SendAndClose`
returns. -/
def UploadFile {σ τ : Type} (fs : FileStorage σ τ) (_svc : FileStorageService) (st : σ)
    (stream : List RecvResult) (closeErr : Option String) : UploadOutcome σ :=
  match uploadLoop stream "" [] with
  | .error (code, msg) =>
    { result := .status code msg, response := none, store := st,
      events := withSlot .upload (.status code msg) [] }
  | .ok (filename, data) =>
    match fs.SaveFile st filename data with
    | (st1, some err) =>
      { result := .status .Internal ("cannot save file: " ++ err.text), response := none,
        store := st1,
        events := withSlot .upload (.status .Internal ("cannot save file: " ++ err.text))
          [.saveFile filename data] }
    | (st1, none) =>
      let res : HandlerResult :=
        match closeErr with
        | none => .ok
        | some e => .transport e
      { result := res, response := some ⟨filename, toUint32 data.length⟩, store := st1,
        events := withSlot .upload res [.saveFile filename data] }

/-- The `(name, content)` arguments of the storage saves in a trace. -/
def saveCalls : List Event → List (String × Bytes)
  | [] => []
  | .saveFile n d :: es => (n, d) :: saveCalls es
  | _ :: es => saveCalls es

/-- The names of the storage reads in a trace. -/
def getCalls : List Event → List String
  | [] => []
  | .getFile n :: es => n :: getCalls es
  | _ :: es => getCalls es

/-! ## DownloadFile -/

/-- Two's-complement wrap-around of a 64-bit Go `int`. -/
def wrapInt (x : Int) : Int := (x + 2 ^ 63) % 2 ^ 64 - 2 ^ 63

/-- Modelled from the spec: the generated message `api.DownloadRequest` is not
among the sources; the handler reads its filename with `GetFilename`. -/
structure DownloadRequest where
  filename : String
  deriving DecidableEq, Repr

/-- The send loop of `DownloadFile` from `currentByte`, with the chunks sent
so far. `send i` is the error of the `i`-th `stream.Send` (counted from 0), if
any. The slice expression `data[currentByte:end]` panics unless
`0 ≤ currentByte ≤ end ≤ cap(data)`; `end ≤ len(data)` holds after the clamp.
The loop need not finish (a chunk size of 0), hence the fuel. -/
def downloadLoop (maxChunkSize : Int) (data : Bytes) (send : Nat → Option String) :
    Nat → Int → List Bytes → HandlerResult × List Bytes
  | 0, _, sent => (.diverged, sent)
  | fuel + 1, currentByte, sent =>
    if currentByte < data.length then
      let end0 := wrapInt (currentByte + maxChunkSize)
      let end1 : Int := if end0 > data.length then data.length else end0
      if 0 ≤ currentByte ∧ currentByte ≤ end1 then
        let chunk := (data.drop currentByte.toNat).take (end1 - currentByte).toNat
        match send sent.length with
        | some err => (.status .Internal ("cannot send chunk: " ++ err), sent)
        | none =>
          downloadLoop maxChunkSize data send fuel (wrapInt (currentByte + maxChunkSize))
            (sent ++ [chunk])
      else (.panicked, sent)
    else (.ok, sent)

structure DownloadOutcome where
  result : HandlerResult
  sent : List Bytes
  events : List Event
  deriving DecidableEq, Repr

/-- `FileStorageService.DownloadFile`. -/
def DownloadFile {σ τ : Type} (fs : FileStorage σ τ) (svc : FileStorageService) (st : σ)
    (req : DownloadRequest) (send : Nat → Option String) (fuel : Nat) : DownloadOutcome :=
  if req.filename = "" then
    { result := .status .InvalidArgument "filename cannot be empty", sent := [],
      events := withSlot .download (.status .InvalidArgument "filename cannot be empty") [] }
  else
    match fs.GetFile st req.filename with
    | .error err =>
      let res : HandlerResult :=
        if err.IsNotExist then .status .NotFound ("file not found: " ++ req.filename)
        else .status .Internal ("cannot read file: " ++ err.text)
      { result := res, sent := [], events := withSlot .download res [.getFile req.filename] }
    | .ok data =>
      let r := downloadLoop svc.maxChunkSize data send fuel 0 []
      { result := r.1, sent := r.2, events := withSlot .download r.1 [.getFile req.filename] }

/-! ## ListFiles -/

/-- Modelled from the spec: the generated message `api.FileInfo` is not among
the sources; the handler fills a name and two formatted timestamps. -/
structure ApiFileInfo where
  Filename : String
  CreatedAt : String
  UpdatedAt : String
  deriving DecidableEq, Repr

structure ListOutcome where
  result : HandlerResult
  response : Option (List ApiFileInfo)
  events : List Event

/-- `FileStorageService.ListFiles`; `fmt` is `Time.Format(time.RFC3339)`. -/
def ListFiles {σ τ : Type} (fs : FileStorage σ τ) (_svc : FileStorageService) (st : σ)
    (fmt : τ → String) : ListOutcome :=
  match fs.ListFiles st with
  | .error err =>
    { result := .status .Internal ("cannot list files: " ++ err.text), response := none,
      events := withSlot .list (.status .Internal ("cannot list files: " ++ err.text))
        [.listFiles] }
  | .ok files =>
    { result := .ok,
      response := some (files.map (fun f => ⟨f.Name, fmt f.CreatedAt, fmt f.UpdatedAt⟩)),
      events := withSlot .list .ok [.listFiles] }

/-! ## Admission control under interleaving

Every handler starts with `s.mu.Lock(); sem <- struct{}{}; s.mu.Unlock()` on
the one mutex of the service and the semaphore channel of its class, and ends
with the deferred `<-sem`. Concurrent calls are threads that each walk through
these program points; a thread whose next operation blocks has no step. -/

/-- Program points of one handler call. -/
inductive Pc
  | entry      -- before `s.mu.Lock()`
  | lockHeld   -- holds `mu`, before the channel send
  | slotTaken  -- holds `mu` and a slot, before `s.mu.Unlock()`
  | running    -- holds a slot, in the body
  | exited     -- after the deferred receive
  deriving DecidableEq, Repr

structure Thread where
  cls : OpClass
  pc : Pc
  deriving DecidableEq, Repr

/-- The mutex, the number of items buffered in each semaphore channel, and the
handler calls in flight. -/
structure SysState where
  muHeld : Bool
  uploadSem : Nat
  downloadSem : Nat
  listSem : Nat
  threads : List Thread
  deriving DecidableEq, Repr

def SysState.sem (s : SysState) : OpClass → Nat
  | .upload => s.uploadSem
  | .download => s.downloadSem
  | .list => s.listSem

def SysState.setSem (s : SysState) (c : OpClass) (n : Nat) : SysState :=
  match c with
  | .upload => { s with uploadSem := n }
  | .download => { s with downloadSem := n }
  | .list => { s with listSem := n }

/-- The next operation of thread `i`, or `none` when it blocks (the mutex is
held, the channel is full or, for a receive, empty) or has returned. -/
def step (svc : FileStorageService) (s : SysState) (i : Nat) : Option SysState :=
  match s.threads.get? i with
  | none => none
  | some t =>
    match t.pc with
    | .entry =>
      if s.muHeld then none
      else some { s with muHeld := true, threads := s.threads.set i ⟨t.cls, .lockHeld⟩ }
    | .lockHeld =>
      if s.sem t.cls < svc.cap t.cls then
        some { s.setSem t.cls (s.sem t.cls + 1) with
          threads := s.threads.set i ⟨t.cls, .slotTaken⟩ }
      else none
    | .slotTaken =>
      some { s with muHeld := false, threads := s.threads.set i ⟨t.cls, .running⟩ }
    | .running =>
      if 0 < s.sem t.cls then
        some { s.setSem t.cls (s.sem t.cls - 1) with
          threads := s.threads.set i ⟨t.cls, .exited⟩ }
      else none
    | .exited => none

/-- Runs a schedule: at each position the named thread takes its step if it
has one. -/
def exec (svc : FileStorageService) : SysState → List Nat → SysState
  | s, [] => s
  | s, i :: rest => exec svc ((step svc s i).getD s) rest

/-- All calls are at their entry, nothing is held. -/
def initState (ops : List OpClass) : SysState :=
  { muHeld := false, uploadSem := 0, downloadSem := 0, listSem := 0,
    threads := ops.map (fun c => ⟨c, .entry⟩) }

/-- A thread holds a slot of class `c` from its channel send to its deferred
receive. -/
def Thread.holds (c : OpClass) (t : Thread) : Bool :=
  decide (t.cls = c) && (decide (t.pc = .slotTaken) || decide (t.pc = .running))

/-- Number of calls of class `c` that hold a slot. -/
def holders (c : OpClass) (s : SysState) : Nat := s.threads.countP (Thread.holds c)

/-! ## Notions used in the statements -/

/-- The chunk payloads of the received messages, concatenated in receipt order. -/
def payload : List RecvResult → Bytes
  | [] => []
  | .msg req :: rest => req.chunk ++ payload rest
  | .fail _ :: rest => payload rest

/-- No `Recv` of the stream returned an error. -/
def noFail : List RecvResult → Bool
  | [] => true
  | .msg _ :: rest => noFail rest
  | .fail _ :: _ => false

/-- The service `NewServer` builds from `NewDefaultConfig`. -/
def defaultService : FileStorageService := ⟨10, 10, 100, 64 * 1024⟩

/-- The disk backend `NewServer` builds from `NewDefaultConfig`. -/
def defaultDisk : DiskStorage := ⟨NewDefaultConfig.StoragePath⟩

/-- The empty in-memory store. -/
def emptyMem : String → Option Bytes := fun _ => none

/-- One chunk as the client sends it: its read buffer has `64*1024` bytes. -/
def clientChunk : Bytes := List.replicate 65536 0

/-- An upload of 4 GiB: the header, then 65536 full chunks. -/
def fourGiBStream : List RecvResult :=
  .msg ⟨"big.bin", []⟩ :: List.replicate 65536 (.msg ⟨"", clientChunk⟩)

/-- A name the flat store can hold: non-empty and without a path separator. -/
def validFilename (f : String) : Bool :=
  decide (f ≠ "") && f.data.all (fun c => !IsPathSeparator c)

/-- The backend of the round-trip property: every save succeeds and a get of
the same name then returns what was saved. -/
def GetAfterSave {σ τ : Type} (fs : FileStorage σ τ) : Prop :=
  ∀ (st : σ) (name : String) (data : Bytes),
    (fs.SaveFile st name data).2 = none ∧
    fs.GetFile (fs.SaveFile st name data).1 name = .ok data

/-- A service whose configured chunk size is 0. -/
def zeroChunkService : FileStorageService := ⟨10, 10, 100, 0⟩

/-- A service whose configured chunk size is negative. -/
def negChunkService : FileStorageService := ⟨10, 10, 100, -1⟩

/-- An in-memory store holding one file of one byte. -/
def oneByteStore : String → Option Bytes := fun n => if n = "a.txt" then some [7] else none

/-- A service with a chunk size of 3 bytes. -/
def smallChunkService : FileStorageService := ⟨1, 1, 1, 3⟩

/-- An in-memory store holding one file of seven bytes. -/
def sevenByteStore : String → Option Bytes :=
  fun n => if n = "a.txt" then some [1, 2, 3, 4, 5, 6, 7] else none

/-- The channel of each class holds as many items as calls of the class hold a
slot, and no more than its capacity. -/
def SlotInv (svc : FileStorageService) (s : SysState) : Prop :=
  ∀ c, s.sem c = holders c s ∧ s.sem c ≤ svc.cap c

/-- The semaphore operations of a trace. -/
def semEvents : List Event → List Event
  | [] => []
  | .semAcquire c :: es => .semAcquire c :: semEvents es
  | .semRelease c :: es => .semRelease c :: semEvents es
  | _ :: es => semEvents es

/-- A service with one slot per class. -/
def oneSlotService : FileStorageService := ⟨1, 1, 1, 64 * 1024⟩

/-- Two uploads and a download; the first upload has taken the only upload
slot and runs, the second has locked the mutex and waits for a slot. -/
def waitingUploadState : SysState :=
  exec oneSlotService (initState [.upload, .upload, .download]) [0, 0, 0, 1]

/-! # Properties -/

/-! ## The default configuration -/

theorem defaultService_eq :
    NewFileStorageService NewDefaultConfig.UploadLimit NewDefaultConfig.DownloadLimit
      NewDefaultConfig.ListLimit NewDefaultConfig.MaxChunkSize = some defaultService := by
  decide

theorem defaultDisk_storagePath : defaultDisk.storagePath = "files/files_server" := rfl

/-! ## Auxiliary facts about the upload loop -/

theorem Base_ne_empty (path : String) : Base path ≠ "" := by
  unfold Base
  split
  · decide
  · simp only []
    split
    · decide
    · rename_i h
      intro h2
      apply h
      have := congrArg String.data h2
      simpa using this

theorem uploadLoop_ok_inv (stream : List RecvResult) :
    ∀ (fn : String) (data : Bytes) (fn1 : String) (data1 : Bytes),
      uploadLoop stream fn data = .ok (fn1, data1) →
        data1 = data ++ payload stream ∧ noFail stream = true := by
  induction stream with
  | nil =>
    intro fn data fn1 data1 h
    simp [uploadLoop] at h
    simp [payload, noFail, h.2]
  | cons r rest ih =>
    intro fn data fn1 data1 h
    cases r with
    | fail e => simp [uploadLoop] at h
    | msg req =>
      simp only [uploadLoop] at h
      split at h
      · split at h
        · simp at h
        · have := ih _ _ _ _ h
          simp [payload, noFail, this.1, this.2]
      · have := ih _ _ _ _ h
        simp [payload, noFail, this.1, this.2]

theorem uploadLoop_named (stream : List RecvResult) :
    ∀ (fn : String) (data : Bytes), fn ≠ "" → noFail stream = true →
      uploadLoop stream fn data = .ok (fn, data ++ payload stream) := by
  induction stream with
  | nil => intro fn data _ _; simp [uploadLoop, payload]
  | cons r rest ih =>
    intro fn data hfn hnf
    cases r with
    | fail e => simp [noFail] at hnf
    | msg req =>
      simp only [noFail] at hnf
      simp only [uploadLoop, if_neg hfn, payload]
      rw [ih _ _ hfn hnf, List.append_assoc]

theorem saveCalls_withSlot (c : OpClass) (r : HandlerResult) (body : List Event) :
    saveCalls (withSlot c r body) = saveCalls body := by
  have happ : ∀ (xs ys : List Event), saveCalls (xs ++ ys) = saveCalls xs ++ saveCalls ys := by
    intro xs ys
    induction xs with
    | nil => simp [saveCalls]
    | cons x xs ih => cases x <;> simp [saveCalls, ih]
  unfold withSlot
  rw [happ, happ]
  split <;> simp [saveCalls]

theorem UploadFile_of_loop_error {σ τ : Type} (fs : FileStorage σ τ) (svc : FileStorageService)
    (st : σ) (stream : List RecvResult) (closeErr : Option String) (code : Code) (msg : String)
    (h : uploadLoop stream "" [] = .error (code, msg)) :
    (UploadFile fs svc st stream closeErr).result = .status code msg ∧
    (UploadFile fs svc st stream closeErr).response = none ∧
    (UploadFile fs svc st stream closeErr).store = st ∧
    saveCalls (UploadFile fs svc st stream closeErr).events = [] := by
  simp [UploadFile, h, saveCalls_withSlot, saveCalls]

theorem UploadFile_of_loop_ok {σ τ : Type} (fs : FileStorage σ τ) (svc : FileStorageService)
    (st : σ) (stream : List RecvResult) (closeErr : Option String) (fn : String) (data : Bytes)
    (h : uploadLoop stream "" [] = .ok (fn, data)) :
    saveCalls (UploadFile fs svc st stream closeErr).events = [(fn, data)] ∧
    (UploadFile fs svc st stream closeErr).store = (fs.SaveFile st fn data).1 ∧
    (∀ m, (UploadFile fs svc st stream closeErr).result ≠ .status .InvalidArgument m) ∧
    ((UploadFile fs svc st stream closeErr).result = .ok →
      (fs.SaveFile st fn data).2 = none ∧ closeErr = none ∧
      (UploadFile fs svc st stream closeErr).response = some ⟨fn, toUint32 data.length⟩) ∧
    ((fs.SaveFile st fn data).2 = none → closeErr = none →
      (UploadFile fs svc st stream closeErr).result = .ok ∧
      (UploadFile fs svc st stream closeErr).response = some ⟨fn, toUint32 data.length⟩) := by
  unfold UploadFile
  simp only [h]
  rcases hs : fs.SaveFile st fn data with ⟨st1, _ | err⟩
  · cases closeErr <;> simp [saveCalls_withSlot, saveCalls]
  · simp [saveCalls_withSlot, saveCalls]

theorem payload_replicate_length (n : Nat) (c : Bytes) :
    (payload (List.replicate n (.msg ⟨"", c⟩))).length = n * c.length := by
  induction n with
  | zero => simp [payload]
  | succ k ih =>
    rw [List.replicate_succ]
    simp only [payload, List.length_append, ih]
    rw [Nat.succ_mul, Nat.add_comm]

theorem noFail_replicate (n : Nat) (req : UploadRequest) :
    noFail (List.replicate n (.msg req)) = true := by
  induction n with
  | zero => simp [noFail]
  | succ k ih => rw [List.replicate_succ]; simpa [noFail] using ih

theorem uploadLoop_header (f : String) (c : Bytes) (rest : List RecvResult) (hf : f ≠ "") :
    uploadLoop (.msg ⟨f, c⟩ :: rest) "" [] = uploadLoop rest (Base f) c := by
  simp [uploadLoop, hf]

theorem fourGiB_loop :
    uploadLoop fourGiBStream "" [] =
      .ok ("big.bin", payload (List.replicate 65536 (.msg ⟨"", clientChunk⟩))) := by
  have hb : Base "big.bin" = "big.bin" := by decide
  have hne : ("big.bin" : String) ≠ "" := by decide
  unfold fourGiBStream
  rw [uploadLoop_header _ _ _ hne, hb, uploadLoop_named _ _ _ hne (noFail_replicate _ _),
    List.nil_append]

theorem fourGiB_length :
    (payload (List.replicate 65536 (.msg ⟨"", clientChunk⟩))).length = 4294967296 := by
  have hc : clientChunk.length = 65536 := List.length_replicate _ _
  rw [payload_replicate_length, hc]

/-! ## UploadFile: claims -/

/-- C5. An upload whose first message has an empty filename, whatever chunk it
carries and whatever follows it, ends with `InvalidArgument` "filename cannot
be empty"; storage save is not called, the store is unchanged and no response
is sent. -/
theorem upload_empty_first_filename_rejected {σ τ : Type} (fs : FileStorage σ τ)
    (svc : FileStorageService) (st : σ) (req : UploadRequest) (rest : List RecvResult)
    (closeErr : Option String) (h : req.filename = "") :
    (UploadFile fs svc st (.msg req :: rest) closeErr).result =
        .status .InvalidArgument "filename cannot be empty" ∧
    saveCalls (UploadFile fs svc st (.msg req :: rest) closeErr).events = [] ∧
    (UploadFile fs svc st (.msg req :: rest) closeErr).store = st ∧
    (UploadFile fs svc st (.msg req :: rest) closeErr).response = none := by
  have hl : uploadLoop (.msg req :: rest) "" [] =
      .error (.InvalidArgument, "filename cannot be empty") := by
    simp [uploadLoop, h]
  have := UploadFile_of_loop_error fs svc st _ closeErr _ _ hl
  exact ⟨this.1, this.2.2.2, this.2.2.1, this.2.1⟩

theorem upload_empty_first_filename_rejected_witness :
    (UploadFile memStorage defaultService emptyMem
        [.msg ⟨"", [1, 2]⟩, .msg ⟨"a.txt", [3]⟩, .fail "reset"] none).result =
      .status .InvalidArgument "filename cannot be empty" ∧
    saveCalls (UploadFile memStorage defaultService emptyMem
        [.msg ⟨"", [1, 2]⟩, .msg ⟨"a.txt", [3]⟩, .fail "reset"] none).events = [] :=
  ⟨(upload_empty_first_filename_rejected memStorage defaultService emptyMem ⟨"", [1, 2]⟩
      [.msg ⟨"a.txt", [3]⟩, .fail "reset"] none rfl).1,
   (upload_empty_first_filename_rejected memStorage defaultService emptyMem ⟨"", [1, 2]⟩
      [.msg ⟨"a.txt", [3]⟩, .fail "reset"] none rfl).2.1⟩

/-- C6 (the code departs from the claim). On a stream that reaches end-of-input
before its first message the filename is still unset, and `UploadFile` calls
storage save with the empty name and no content; the call never ends with
`InvalidArgument`: it ends with `Internal` when the save fails and with a
success response naming "" when the save succeeds. The disk backend joins the
empty name to the storage root itself. -/
theorem upload_empty_stream_saves_unnamed {σ τ : Type} (fs : FileStorage σ τ)
    (svc : FileStorageService) (st : σ) (closeErr : Option String) :
    saveCalls (UploadFile fs svc st [] closeErr).events = [("", [])] ∧
    (∀ m, (UploadFile fs svc st [] closeErr).result ≠ .status .InvalidArgument m) ∧
    (∀ e, (fs.SaveFile st "" []).2 = some e →
      (UploadFile fs svc st [] closeErr).result =
        .status .Internal ("cannot save file: " ++ e.text)) ∧
    ((fs.SaveFile st "" []).2 = none → closeErr = none →
      (UploadFile fs svc st [] closeErr).result = .ok ∧
      (UploadFile fs svc st [] closeErr).response = some ⟨"", 0⟩) ∧
    defaultDisk.filePath "" = "files/files_server" := by
  have hl : uploadLoop [] "" [] = .ok ("", []) := rfl
  have h := UploadFile_of_loop_ok fs svc st [] closeErr _ _ hl
  refine ⟨h.1, h.2.2.1, ?_, ?_, by decide⟩
  · intro e he
    unfold UploadFile
    simp only [hl]
    rcases hs : fs.SaveFile st "" [] with ⟨st1, _ | err⟩
    · rw [hs] at he; simp at he
    · rw [hs] at he
      simp only [Option.some.injEq] at he
      simp [he]
  · intro h1 h2
    have := h.2.2.2.2 h1 h2
    simpa [toUint32] using this

/-- C7, as amended. When an upload succeeds, storage save was called once with
the concatenated payloads and the size of the response is the length of that
content modulo 2^32 (the field is a `uint32`); it is the length itself when the
content is shorter than 2^32 bytes. -/
theorem upload_size_is_length_mod {σ τ : Type} (fs : FileStorage σ τ)
    (svc : FileStorageService) (st : σ) (stream : List RecvResult) (closeErr : Option String)
    (h : (UploadFile fs svc st stream closeErr).result = .ok) :
    ∃ name, saveCalls (UploadFile fs svc st stream closeErr).events = [(name, payload stream)] ∧
      (UploadFile fs svc st stream closeErr).response =
        some ⟨name, (payload stream).length % 2 ^ 32⟩ ∧
      ((payload stream).length < 2 ^ 32 →
        (UploadFile fs svc st stream closeErr).response =
          some ⟨name, (payload stream).length⟩) := by
  rcases hl : uploadLoop stream "" [] with ⟨code, msg⟩ | ⟨fn, data⟩
  · have := (UploadFile_of_loop_error fs svc st stream closeErr code msg hl).1
    rw [this] at h
    cases h
  · have hd := (uploadLoop_ok_inv stream _ _ _ _ hl).1
    simp only [List.nil_append] at hd
    subst hd
    have hu := UploadFile_of_loop_ok fs svc st stream closeErr _ _ hl
    have hr := (hu.2.2.2.1 h).2.2
    refine ⟨fn, hu.1, ?_, ?_⟩
    · simpa [toUint32] using hr
    · intro hlt
      rw [hr, toUint32, Nat.mod_eq_of_lt hlt]

theorem upload_size_is_length_mod_witness :
    ∃ name, saveCalls (UploadFile memStorage defaultService emptyMem
        [.msg ⟨"a.txt", [1]⟩, .msg ⟨"", [2, 3]⟩] none).events =
          [(name, payload [.msg ⟨"a.txt", [1]⟩, .msg ⟨"", [2, 3]⟩])] ∧
      (UploadFile memStorage defaultService emptyMem
        [.msg ⟨"a.txt", [1]⟩, .msg ⟨"", [2, 3]⟩] none).response =
          some ⟨name, (payload [.msg ⟨"a.txt", [1]⟩, .msg ⟨"", [2, 3]⟩]).length % 2 ^ 32⟩ ∧
      ((payload [.msg ⟨"a.txt", [1]⟩, .msg ⟨"", [2, 3]⟩]).length < 2 ^ 32 →
        (UploadFile memStorage defaultService emptyMem
          [.msg ⟨"a.txt", [1]⟩, .msg ⟨"", [2, 3]⟩] none).response =
            some ⟨name, (payload [.msg ⟨"a.txt", [1]⟩, .msg ⟨"", [2, 3]⟩]).length⟩) :=
  upload_size_is_length_mod memStorage defaultService emptyMem
    [.msg ⟨"a.txt", [1]⟩, .msg ⟨"", [2, 3]⟩] none (by decide)

/-- C7, counterexample. The upload of 4 GiB (a header and 65536 chunks of
65536 bytes) succeeds with 4294967296 bytes saved and a response size of 0. -/
theorem upload_size_wraps_at_4GiB :
    (UploadFile memStorage defaultService emptyMem fourGiBStream none).result = .ok ∧
    (∃ content, saveCalls (UploadFile memStorage defaultService emptyMem fourGiBStream none).events
        = [("big.bin", content)] ∧ content.length = 4294967296) ∧
    (UploadFile memStorage defaultService emptyMem fourGiBStream none).response =
      some ⟨"big.bin", 0⟩ := by
  have hu := UploadFile_of_loop_ok memStorage defaultService emptyMem fourGiBStream none _ _
    fourGiB_loop
  have hr := hu.2.2.2.2 rfl rfl
  refine ⟨hr.1, ⟨_, hu.1, fourGiB_length⟩, ?_⟩
  rw [hr.2, fourGiB_length]
  rfl

/-- C8. Storage save is called at most once per upload, and only when every
receive up to end-of-input returned a message; its content is then the
concatenation of the chunk payloads of all received messages in receipt order,
the header message included. When a receive fails, save is not called, the
store is unchanged and no response is sent. -/
theorem upload_saves_whole_buffer_or_nothing {σ τ : Type} (fs : FileStorage σ τ)
    (svc : FileStorageService) (st : σ) (stream : List RecvResult) (closeErr : Option String) :
    (saveCalls (UploadFile fs svc st stream closeErr).events = [] ∨
      (noFail stream = true ∧
        ∃ name, saveCalls (UploadFile fs svc st stream closeErr).events =
          [(name, payload stream)])) ∧
    (noFail stream = false →
      saveCalls (UploadFile fs svc st stream closeErr).events = [] ∧
      (UploadFile fs svc st stream closeErr).store = st ∧
      (UploadFile fs svc st stream closeErr).response = none) := by
  rcases hl : uploadLoop stream "" [] with ⟨code, msg⟩ | ⟨fn, data⟩
  · have h := UploadFile_of_loop_error fs svc st stream closeErr code msg hl
    exact ⟨Or.inl h.2.2.2, fun _ => ⟨h.2.2.2, h.2.2.1, h.2.1⟩⟩
  · have hd := uploadLoop_ok_inv stream _ _ _ _ hl
    have hu := UploadFile_of_loop_ok fs svc st stream closeErr _ _ hl
    have hp : data = payload stream := by simpa using hd.1
    subst hp
    refine ⟨Or.inr ⟨hd.2, fn, hu.1⟩, ?_⟩
    intro hf
    rw [hd.2] at hf
    cases hf

/-- C3 (the code departs from the claim). `filepath.Base` keeps a
parent-directory segment: for the filename ".." the name passed to storage
save is "..", which the disk backend joins to the parent of the storage root;
for a filename of separators the stored name is the separator. For
"../../etc/passwd" the stored name is "passwd". -/
theorem upload_parent_segment_not_sanitized {σ τ : Type} (fs : FileStorage σ τ)
    (svc : FileStorageService) (st : σ) (data : Bytes) (closeErr : Option String) :
    saveCalls (UploadFile fs svc st [.msg ⟨"..", data⟩] closeErr).events = [("..", data)] ∧
    defaultDisk.filePath ".." = "files" ∧
    underRoot defaultDisk.storagePath (defaultDisk.filePath "..") = false ∧
    saveCalls (UploadFile fs svc st [.msg ⟨"//", data⟩] closeErr).events = [("/", data)] ∧
    saveCalls (UploadFile fs svc st [.msg ⟨"../../etc/passwd", data⟩] closeErr).events =
      [("passwd", data)] := by
  have hb1 : Base ".." = ".." := by decide
  have hb2 : Base "//" = "/" := by decide
  have hb3 : Base "../../etc/passwd" = "passwd" := by decide
  have h1 : uploadLoop [.msg ⟨"..", data⟩] "" [] = .ok ("..", data) := by
    simp [uploadLoop, hb1]
  have h2 : uploadLoop [.msg ⟨"//", data⟩] "" [] = .ok ("/", data) := by
    simp [uploadLoop, hb2]
  have h3 : uploadLoop [.msg ⟨"../../etc/passwd", data⟩] "" [] = .ok ("passwd", data) := by
    simp [uploadLoop, hb3]
  exact ⟨(UploadFile_of_loop_ok fs svc st _ closeErr _ _ h1).1, by decide, by decide,
    (UploadFile_of_loop_ok fs svc st _ closeErr _ _ h2).1,
    (UploadFile_of_loop_ok fs svc st _ closeErr _ _ h3).1⟩

/-! ## DownloadFile: auxiliary facts -/

theorem wrapInt_of_inRange (x : Int) (h0 : 0 ≤ x) (h1 : x < 2 ^ 63) : wrapInt x = x := by
  unfold wrapInt
  omega

theorem downloadLoop_exit (M : Int) (data : Bytes) (send : Nat → Option String)
    (fuel : Nat) (cur : Int) (sent : List Bytes) (h : (data.length : Int) ≤ cur) :
    downloadLoop M data send (fuel + 1) cur sent = (.ok, sent) := by
  rw [downloadLoop, if_neg (by omega)]

theorem downloadLoop_step (m : Nat) (hm : 0 < m) (data : Bytes)
    (send : Nat → Option String) (fuel n : Nat) (sent : List Bytes)
    (hsum : n + m < 2 ^ 63) (hn : n < data.length)
    (hs : send sent.length = none) :
    downloadLoop (m : Int) data send (fuel + 1) (n : Int) sent =
      downloadLoop (m : Int) data send fuel ((n + m : Nat) : Int)
        (sent ++ [(data.drop n).take m]) := by
  have hw : wrapInt ((n : Int) + (m : Int)) = ((n + m : Nat) : Int) := by
    rw [wrapInt_of_inRange] <;> omega
  rw [downloadLoop, if_pos (by omega), hw]
  by_cases h2 : data.length < n + m
  · have hc : (data.drop n).take (data.length - n) = (data.drop n).take m := by
      rw [List.take_of_length_le (by simp), List.take_of_length_le (by simp; omega)]
    have e1 : (((data.length : Int) - (n : Int)).toNat) = data.length - n := by omega
    simp only [gt_iff_lt, Nat.cast_lt, h2, if_true, Int.toNat_ofNat, e1, hc, hs]
    rw [if_pos (by omega)]
  · have e1 : ((((n + m : Nat) : Int) - (n : Int)).toNat) = m := by omega
    simp only [gt_iff_lt, Nat.cast_lt, h2, if_false, Int.toNat_ofNat, e1, hs]
    rw [if_pos (by omega)]

theorem downloadLoop_complete (m : Nat) (hm : 0 < m) (hmax : m < 2 ^ 63) (data : Bytes)
    (hlen : data.length < 2 ^ 62) (send : Nat → Option String)
    (hsend : ∀ i, send i = none) :
    ∀ (fuel n : Nat) (sent : List Bytes), (n = 0 ∨ m ≤ n) → data.length - n < fuel →
      ∃ rest : List Bytes,
        downloadLoop (m : Int) data send fuel (n : Int) sent = (.ok, sent ++ rest) ∧
        rest.flatten = data.drop n ∧
        (∀ c ∈ rest, c.length ≤ m) ∧
        data.length - n ≤ rest.length * m ∧ rest.length * m < data.length - n + m := by
  intro fuel
  induction fuel with
  | zero => intro n sent _ h; omega
  | succ k ih =>
    intro n sent hmul h
    by_cases hn : n < data.length
    · obtain ⟨rest, hr, hj, hc, hlo, hhi⟩ :=
        ih (n + m) (sent ++ [(data.drop n).take m]) (by omega) (by omega)
      refine ⟨(data.drop n).take m :: rest, ?_, ?_, ?_, ?_, ?_⟩
      · rw [downloadLoop_step m hm data send k n sent (by omega) hn (hsend _), hr]
        simp
      · rw [List.flatten_cons, hj, ← List.drop_drop, List.take_append_drop]
      · intro c hcm
        rcases List.mem_cons.mp hcm with rfl | h1
        · simp [List.length_take]
        · exact hc c h1
      · rw [List.length_cons, Nat.succ_mul]; omega
      · rw [List.length_cons, Nat.succ_mul]
        by_cases hge : m ≤ data.length - n
        · omega
        · have h0 : rest.length * m < 1 * m := by omega
          have h00 : rest.length < 1 := Nat.lt_of_mul_lt_mul_right h0
          have h000 : rest.length = 0 := by omega
          rw [h000]; omega
    · refine ⟨[], ?_, ?_, ?_, ?_, ?_⟩
      · rw [downloadLoop_exit _ _ _ _ _ _ (by omega)]; simp
      · rw [List.drop_eq_nil_of_le (by omega)]; rfl
      · intro c hcm; cases hcm
      · simp; omega
      · simp; omega

theorem getCalls_withSlot (c : OpClass) (r : HandlerResult) (body : List Event) :
    getCalls (withSlot c r body) = getCalls body := by
  have happ : ∀ (xs ys : List Event), getCalls (xs ++ ys) = getCalls xs ++ getCalls ys := by
    intro xs ys
    induction xs with
    | nil => simp [getCalls]
    | cons x xs ih => cases x <;> simp [getCalls, ih]
  unfold withSlot
  rw [happ, happ]
  split <;> simp [getCalls]

theorem DownloadFile_of_get_ok {σ τ : Type} (fs : FileStorage σ τ) (svc : FileStorageService)
    (st : σ) (req : DownloadRequest) (send : Nat → Option String) (fuel : Nat) (data : Bytes)
    (hname : req.filename ≠ "") (hget : fs.GetFile st req.filename = .ok data) :
    (DownloadFile fs svc st req send fuel).result =
      (downloadLoop svc.maxChunkSize data send fuel 0 []).1 ∧
    (DownloadFile fs svc st req send fuel).sent =
      (downloadLoop svc.maxChunkSize data send fuel 0 []).2 := by
  simp [DownloadFile, hname, hget]

theorem getCalls_DownloadFile {σ τ : Type} (fs : FileStorage σ τ) (svc : FileStorageService)
    (st : σ) (req : DownloadRequest) (send : Nat → Option String) (fuel : Nat)
    (hname : req.filename ≠ "") :
    getCalls (DownloadFile fs svc st req send fuel).events = [req.filename] := by
  unfold DownloadFile
  rw [if_neg hname]
  cases fs.GetFile st req.filename <;> simp only [] <;> rw [getCalls_withSlot] <;> rfl

/-- The download of stored content with a positive `int` chunk size, content
shorter than 2^62 bytes and no failing send. -/
theorem DownloadFile_complete {σ τ : Type} (fs : FileStorage σ τ) (svc : FileStorageService)
    (st : σ) (req : DownloadRequest) (send : Nat → Option String) (fuel : Nat) (data : Bytes)
    (hname : req.filename ≠ "") (hget : fs.GetFile st req.filename = .ok data)
    (hM : 0 < svc.maxChunkSize) (hMmax : svc.maxChunkSize < 2 ^ 63)
    (hlen : data.length < 2 ^ 62)
    (hsend : ∀ i, send i = none) (hfuel : data.length < fuel) :
    (DownloadFile fs svc st req send fuel).result = .ok ∧
    (DownloadFile fs svc st req send fuel).sent.flatten = data ∧
    (∀ c ∈ (DownloadFile fs svc st req send fuel).sent, (c.length : Int) ≤ svc.maxChunkSize) ∧
    (DownloadFile fs svc st req send fuel).sent.length =
      (data.length + svc.maxChunkSize.toNat - 1) / svc.maxChunkSize.toNat := by
  obtain ⟨hres, hsent⟩ := DownloadFile_of_get_ok fs svc st req send fuel data hname hget
  have hm : svc.maxChunkSize = ((svc.maxChunkSize.toNat : Nat) : Int) :=
    (Int.toNat_of_nonneg (le_of_lt hM)).symm
  generalize svc.maxChunkSize.toNat = m at hm
  rw [hm] at hres hsent hMmax hM ⊢
  have hmpos : 0 < m := by omega
  obtain ⟨rest, hr, hj, hc, hlo, hhi⟩ :=
    downloadLoop_complete m hmpos (by omega) data hlen send hsend fuel 0 [] (Or.inl rfl)
      (by omega)
  have hcast : (((0 : Nat) : Int)) = 0 := rfl
  rw [hcast] at hr
  rw [hr] at hres hsent
  simp only [List.nil_append] at hres hsent
  rw [hres, hsent]
  refine ⟨rfl, by simpa using hj, ?_, ?_⟩
  · intro c hcm
    exact_mod_cast hc c hcm
  · symm
    apply Nat.div_eq_of_lt_le
    · omega
    · rw [Nat.succ_mul]; omega

theorem takeWhile_all {α : Type} (p : α → Bool) (l : List α) (h : ∀ x ∈ l, p x = true) :
    l.takeWhile p = l := by
  induction l with
  | nil => rfl
  | cons a l ih =>
    rw [List.takeWhile_cons, h a (List.mem_cons_self _ _)]
    simp only [if_true]
    rw [ih (fun x hx => h x (List.mem_cons_of_mem _ hx))]

theorem dropWhile_none {α : Type} (p : α → Bool) (l : List α) (h : ∀ x ∈ l, p x = false) :
    l.dropWhile p = l := by
  cases l with
  | nil => rfl
  | cons a l => rw [List.dropWhile_cons, h a (List.mem_cons_self _ _)]; rfl

theorem Base_of_valid (f : String) (h : validFilename f = true) : Base f = f := by
  unfold validFilename at h
  simp only [Bool.and_eq_true, decide_eq_true_eq, List.all_eq_true, Bool.not_eq_true'] at h
  obtain ⟨hne, hall⟩ := h
  have h1 : f.data.reverse.dropWhile IsPathSeparator = f.data.reverse :=
    dropWhile_none _ _ (fun x hx => hall x (List.mem_reverse.mp hx))
  have h2 : f.data.reverse.takeWhile (fun c => !IsPathSeparator c) = f.data.reverse :=
    takeWhile_all _ _ (fun x hx => by simp [hall x (List.mem_reverse.mp hx)])
  have h3 : f.data ≠ [] := by
    intro h0
    apply hne
    cases f
    simp only at h0
    subst h0
    rfl
  unfold Base
  rw [if_neg hne]
  simp only [h1, h2, List.reverse_reverse, if_neg h3]

theorem payload_chunks (parts : List Bytes) :
    payload (parts.map (fun c => RecvResult.msg ⟨"", c⟩)) = parts.flatten := by
  induction parts with
  | nil => rfl
  | cons p ps ih => simp [payload, ih]

theorem noFail_chunks (parts : List Bytes) :
    noFail (parts.map (fun c => RecvResult.msg ⟨"", c⟩)) = true := by
  induction parts with
  | nil => rfl
  | cons p ps ih => simpa [noFail] using ih

theorem memStorage_getAfterSave : GetAfterSave memStorage := by
  intro st name data
  simp [memStorage]

theorem downloadLoop_zero_diverges (fuel : Nat) :
    ∀ sent, (downloadLoop 0 [7] (fun _ => none) fuel 0 sent).1 = .diverged := by
  induction fuel with
  | zero => intro sent; rfl
  | succ k ih =>
    intro sent
    have hw : wrapInt (0 + 0) = 0 := by decide
    have hlt : ¬ ((([7] : Bytes).length : Int) < 0) := by decide
    rw [downloadLoop, if_pos (by decide), hw]
    simp only [gt_iff_lt, if_neg hlt, le_refl, and_self, if_true]
    exact ih _

/-! ## DownloadFile: claims -/

/-- C1, as amended. For a chunk size `M` with `1 ≤ M` (an `int`, so below
2^63) and stored content of size `S` (below 2^62, as the length of every Go
slice is), a download whose sends all succeed returns (given fuel above `S`)
after sending exactly `ceil(S / M)` chunks, written `(S + M - 1) / M`, which is
0 for `S = 0`; every chunk has at most `M` bytes and the chunks concatenated in
the order sent are the stored content. -/
theorem download_chunks_cover_content {σ τ : Type} (fs : FileStorage σ τ)
    (svc : FileStorageService) (st : σ) (req : DownloadRequest) (send : Nat → Option String)
    (fuel : Nat) (data : Bytes)
    (hname : req.filename ≠ "") (hget : fs.GetFile st req.filename = .ok data)
    (hM : 0 < svc.maxChunkSize) (hMmax : svc.maxChunkSize < 2 ^ 63)
    (hlen : data.length < 2 ^ 62)
    (hsend : ∀ i, send i = none) (hfuel : data.length < fuel) :
    (DownloadFile fs svc st req send fuel).result = .ok ∧
    (DownloadFile fs svc st req send fuel).sent.length =
      (data.length + svc.maxChunkSize.toNat - 1) / svc.maxChunkSize.toNat ∧
    (∀ c ∈ (DownloadFile fs svc st req send fuel).sent, (c.length : Int) ≤ svc.maxChunkSize) ∧
    (DownloadFile fs svc st req send fuel).sent.flatten = data := by
  have h := DownloadFile_complete fs svc st req send fuel data hname hget hM hMmax hlen hsend
    hfuel
  exact ⟨h.1, h.2.2.2, h.2.2.1, h.2.1⟩

theorem download_chunks_cover_content_witness :
    (DownloadFile memStorage smallChunkService sevenByteStore ⟨"a.txt"⟩ (fun _ => none) 8).result
      = .ok ∧
    (DownloadFile memStorage smallChunkService sevenByteStore ⟨"a.txt"⟩ (fun _ => none) 8).sent.length
      = (([1, 2, 3, 4, 5, 6, 7] : Bytes).length + smallChunkService.maxChunkSize.toNat - 1) /
          smallChunkService.maxChunkSize.toNat ∧
    (∀ c ∈ (DownloadFile memStorage smallChunkService sevenByteStore ⟨"a.txt"⟩
        (fun _ => none) 8).sent, (c.length : Int) ≤ smallChunkService.maxChunkSize) ∧
    (DownloadFile memStorage smallChunkService sevenByteStore ⟨"a.txt"⟩ (fun _ => none) 8).sent.flatten
      = [1, 2, 3, 4, 5, 6, 7] :=
  download_chunks_cover_content memStorage smallChunkService sevenByteStore ⟨"a.txt"⟩
    (fun _ => none) 8 [1, 2, 3, 4, 5, 6, 7] (by decide) rfl (by decide) (by decide) (by decide)
    (fun _ => rfl) (by decide)

/-- C1, counterexample. With a chunk size of 0 and one stored byte the send
loop never ends: for every amount of fuel the call has not returned, and after
three iterations it has sent three empty chunks. With a chunk size of -1 the
first slice expression panics. -/
theorem download_zero_chunk_size_never_returns :
    (¬ ∃ fuel, (DownloadFile memStorage zeroChunkService oneByteStore ⟨"a.txt"⟩
        (fun _ => none) fuel).result ≠ .diverged) ∧
    (DownloadFile memStorage zeroChunkService oneByteStore ⟨"a.txt"⟩ (fun _ => none) 3).sent
      = [[], [], []] ∧
    (DownloadFile memStorage negChunkService oneByteStore ⟨"a.txt"⟩ (fun _ => none) 3).result
      = .panicked := by
  refine ⟨?_, by decide, by decide⟩
  rintro ⟨fuel, hf⟩
  apply hf
  have h := (DownloadFile_of_get_ok memStorage zeroChunkService oneByteStore ⟨"a.txt"⟩
    (fun _ => none) fuel [7] (by decide) rfl).1
  rw [h]
  exact downloadLoop_zero_diverges fuel []

/-- C2. Over a backend where save succeeds and get returns what was last saved
under the name, for a valid filename `f` (non-empty, no separator) and any
split `parts` of the content: the upload of the header `f` followed by one
chunk message per part succeeds with `f` and the content saved, and a download
of `f` from the resulting store (a positive `int` chunk size, content shorter
than 2^62 bytes, sends succeeding, fuel above the length) returns after
streaming chunks whose concatenation is the content. -/
theorem upload_then_download_roundtrip {σ τ : Type} (fs : FileStorage σ τ)
    (svc : FileStorageService) (st : σ) (f : String) (parts : List Bytes)
    (send : Nat → Option String) (fuel : Nat)
    (hfs : GetAfterSave fs) (hf : validFilename f = true)
    (hM : 0 < svc.maxChunkSize) (hMmax : svc.maxChunkSize < 2 ^ 63)
    (hlen : parts.flatten.length < 2 ^ 62)
    (hsend : ∀ i, send i = none) (hfuel : parts.flatten.length < fuel) :
    (UploadFile fs svc st (.msg ⟨f, []⟩ :: parts.map (fun c => .msg ⟨"", c⟩)) none).result
      = .ok ∧
    saveCalls (UploadFile fs svc st (.msg ⟨f, []⟩ :: parts.map (fun c => .msg ⟨"", c⟩))
      none).events = [(f, parts.flatten)] ∧
    (DownloadFile fs svc
      (UploadFile fs svc st (.msg ⟨f, []⟩ :: parts.map (fun c => .msg ⟨"", c⟩)) none).store
      ⟨f⟩ send fuel).result = .ok ∧
    (DownloadFile fs svc
      (UploadFile fs svc st (.msg ⟨f, []⟩ :: parts.map (fun c => .msg ⟨"", c⟩)) none).store
      ⟨f⟩ send fuel).sent.flatten = parts.flatten := by
  have hne : f ≠ "" := by
    unfold validFilename at hf
    simp only [Bool.and_eq_true, decide_eq_true_eq] at hf
    exact hf.1
  have hl : uploadLoop (.msg ⟨f, []⟩ :: parts.map (fun c => .msg ⟨"", c⟩)) "" [] =
      .ok (f, parts.flatten) := by
    rw [uploadLoop_header _ _ _ hne, Base_of_valid f hf,
      uploadLoop_named _ _ _ hne (noFail_chunks parts), payload_chunks, List.nil_append]
  have hu := UploadFile_of_loop_ok fs svc st _ none _ _ hl
  have hs := hfs st f parts.flatten
  have hd := DownloadFile_complete fs svc (fs.SaveFile st f parts.flatten).1 ⟨f⟩ send fuel
    parts.flatten hne hs.2 hM hMmax hlen hsend hfuel
  rw [hu.2.1]
  exact ⟨(hu.2.2.2.2 hs.1 rfl).1, hu.1, hd.1, hd.2.1⟩

theorem upload_then_download_roundtrip_witness :
    (UploadFile memStorage smallChunkService emptyMem
      (.msg ⟨"a.txt", []⟩ :: [[1, 2], [], [3, 4, 5, 6]].map (fun c => .msg ⟨"", c⟩)) none).result
      = .ok ∧
    saveCalls (UploadFile memStorage smallChunkService emptyMem
      (.msg ⟨"a.txt", []⟩ :: [[1, 2], [], [3, 4, 5, 6]].map (fun c => .msg ⟨"", c⟩)) none).events
      = [("a.txt", ([[1, 2], [], [3, 4, 5, 6]] : List Bytes).flatten)] ∧
    (DownloadFile memStorage smallChunkService
      (UploadFile memStorage smallChunkService emptyMem
        (.msg ⟨"a.txt", []⟩ :: [[1, 2], [], [3, 4, 5, 6]].map (fun c => .msg ⟨"", c⟩)) none).store
      ⟨"a.txt"⟩ (fun _ => none) 7).result = .ok ∧
    (DownloadFile memStorage smallChunkService
      (UploadFile memStorage smallChunkService emptyMem
        (.msg ⟨"a.txt", []⟩ :: [[1, 2], [], [3, 4, 5, 6]].map (fun c => .msg ⟨"", c⟩)) none).store
      ⟨"a.txt"⟩ (fun _ => none) 7).sent.flatten
      = ([[1, 2], [], [3, 4, 5, 6]] : List Bytes).flatten :=
  upload_then_download_roundtrip memStorage smallChunkService emptyMem "a.txt"
    [[1, 2], [], [3, 4, 5, 6]] (fun _ => none) 7 memStorage_getAfterSave (by decide)
    (by decide) (by decide) (by decide) (fun _ => rfl) (by decide)

/-- C4 (the code departs from the claim). `DownloadFile` passes the requested
filename to storage get unchanged: for "../../etc/passwd" the name handed to
the backend is "../../etc/passwd", the disk backend reads the path
"etc/passwd", which is not under the storage root, and when that file exists
its content is streamed to the caller. -/
theorem download_filename_not_sanitized {φ τ : Type} (os : OS φ τ) (fsys : φ)
    (send : Nat → Option String) (fuel : Nat) :
    getCalls (DownloadFile (defaultDisk.toFileStorage os) defaultService fsys
      ⟨"../../etc/passwd"⟩ send fuel).events = ["../../etc/passwd"] ∧
    (defaultDisk.toFileStorage os).GetFile fsys "../../etc/passwd" =
      os.ReadFile fsys "etc/passwd" ∧
    underRoot defaultDisk.storagePath (defaultDisk.filePath "../../etc/passwd") = false ∧
    (∀ secret : Bytes, os.ReadFile fsys "etc/passwd" = .ok secret →
      secret.length < 2 ^ 62 → (∀ i, send i = none) → secret.length < fuel →
      (DownloadFile (defaultDisk.toFileStorage os) defaultService fsys
        ⟨"../../etc/passwd"⟩ send fuel).result = .ok ∧
      (DownloadFile (defaultDisk.toFileStorage os) defaultService fsys
        ⟨"../../etc/passwd"⟩ send fuel).sent.flatten = secret) := by
  have hp : defaultDisk.filePath "../../etc/passwd" = "etc/passwd" := by decide
  have hg : (defaultDisk.toFileStorage os).GetFile fsys "../../etc/passwd" =
      os.ReadFile fsys "etc/passwd" := by
    show os.ReadFile fsys (defaultDisk.filePath "../../etc/passwd") = _
    rw [hp]
  refine ⟨getCalls_DownloadFile _ _ _ _ _ _ (by decide), hg, by decide, ?_⟩
  intro secret hread hlen hsend hfuel
  have hd := DownloadFile_complete (defaultDisk.toFileStorage os) defaultService fsys
    ⟨"../../etc/passwd"⟩ send fuel secret (by decide) (hg.trans hread) (by decide) (by decide)
    hlen hsend hfuel
  exact ⟨hd.1, hd.2.1⟩

/-! ## Admission control: auxiliary facts -/

theorem countP_set_get {α : Type} (p : α → Bool) :
    ∀ (l : List α) (i : Nat) (a b : α), l.get? i = some a →
      (l.set i b).countP p + (if p a = true then 1 else 0) =
        l.countP p + (if p b = true then 1 else 0) := by
  intro l
  induction l with
  | nil => intro i a b h; simp at h
  | cons x xs ih =>
    intro i a b h
    cases i with
    | zero =>
      simp only [List.get?_cons_zero, Option.some.injEq] at h
      subst h
      simp only [List.set_cons_zero, List.countP_cons]
      omega
    | succ j =>
      simp only [List.get?_cons_succ] at h
      have := ih j a b h
      simp only [List.set_cons_succ, List.countP_cons]
      omega

theorem sem_setSem (s : SysState) (c d : OpClass) (n : Nat) :
    (s.setSem c n).sem d = if d = c then n else s.sem d := by
  cases c <;> cases d <;> simp [SysState.setSem, SysState.sem]

theorem step_inv (svc : FileStorageService) (s s1 : SysState) (i : Nat)
    (h : step svc s i = some s1) (hinv : SlotInv svc s) : SlotInv svc s1 := by
  intro c
  obtain ⟨hc, hcap⟩ := hinv c
  unfold step at h
  cases hg : s.threads.get? i with
  | none => rw [hg] at h; cases h
  | some t =>
    obtain ⟨cls, pc⟩ := t
    have hcnt := fun b => countP_set_get (Thread.holds c) s.threads i ⟨cls, pc⟩ b hg
    rw [hg] at h
    simp only at h
    cases pc with
    | entry =>
      simp only at h
      split at h
      · cases h
      · simp only [Option.some.injEq] at h
        subst h
        have := hcnt ⟨cls, .lockHeld⟩
        simp [Thread.holds] at this
        simp only [holders, SysState.sem] at hc hcap ⊢
        constructor
        · cases c <;> simp only at hc ⊢ <;> omega
        · cases c <;> simpa using hcap
    | lockHeld =>
      simp only at h
      split at h
      · rename_i hlt
        simp only [Option.some.injEq] at h
        subst h
        have := hcnt ⟨cls, .slotTaken⟩
        simp [Thread.holds] at this
        obtain ⟨hcls, _⟩ := hinv cls
        have e1 : ∀ d, SysState.sem { s.setSem cls (s.sem cls + 1) with
            threads := s.threads.set i ⟨cls, .slotTaken⟩ } d =
            if d = cls then s.sem cls + 1 else s.sem d := by
          intro d
          rw [← sem_setSem s cls d (s.sem cls + 1)]
          cases d <;> rfl
        rw [e1 c]
        simp only [holders] at hc ⊢
        by_cases hcc : c = cls
        · subst hcc
          simp only [if_true] at this ⊢
          omega
        · have hcc2 : ¬ cls = c := fun h => hcc h.symm
          simp only [if_neg hcc, if_neg hcc2] at this ⊢
          omega
      · cases h
    | slotTaken =>
      simp only [Option.some.injEq] at h
      subst h
      have := hcnt ⟨cls, .running⟩
      simp [Thread.holds] at this
      simp only [holders, SysState.sem] at hc hcap ⊢
      constructor
      · cases c <;> simp only at hc ⊢ <;> omega
      · cases c <;> simpa using hcap
    | running =>
      simp only at h
      split at h
      · rename_i hpos
        simp only [Option.some.injEq] at h
        subst h
        have := hcnt ⟨cls, .exited⟩
        simp [Thread.holds] at this
        have e1 : ∀ d, SysState.sem { s.setSem cls (s.sem cls - 1) with
            threads := s.threads.set i ⟨cls, .exited⟩ } d =
            if d = cls then s.sem cls - 1 else s.sem d := by
          intro d
          rw [← sem_setSem s cls d (s.sem cls - 1)]
          cases d <;> rfl
        rw [e1 c]
        simp only [holders] at hc ⊢
        by_cases hcc : c = cls
        · subst hcc
          simp only [if_true] at this ⊢
          omega
        · have hcc2 : ¬ cls = c := fun h => hcc h.symm
          simp only [if_neg hcc, if_neg hcc2] at this ⊢
          omega
      · cases h
    | exited => cases h

theorem initState_inv (svc : FileStorageService) (ops : List OpClass) :
    SlotInv svc (initState ops) := by
  intro c
  have h0 : holders c (initState ops) = 0 := by
    simp only [holders, initState]
    rw [List.countP_eq_zero]
    intro t ht
    simp only [List.mem_map] at ht
    obtain ⟨d, _, rfl⟩ := ht
    simp [Thread.holds]
  rw [h0]
  cases c <;> simp [initState, SysState.sem]

theorem exec_inv (svc : FileStorageService) (sched : List Nat) :
    ∀ s, SlotInv svc s → SlotInv svc (exec svc s sched) := by
  induction sched with
  | nil => intro s h; exact h
  | cons i rest ih =>
    intro s h
    rw [exec]
    apply ih
    cases hs : step svc s i with
    | none => exact h
    | some s1 => exact step_inv svc s s1 i hs h

theorem running_can_release (svc : FileStorageService) (s : SysState) (i : Nat) (c : OpClass)
    (hinv : SlotInv svc s) (hi : s.threads.get? i = some ⟨c, .running⟩) :
    (step svc s i).isSome = true := by
  have hpos : 0 < holders c s := by
    unfold holders
    rw [List.countP_pos_iff]
    exact ⟨⟨c, .running⟩, List.get?_mem hi, by simp [Thread.holds]⟩
  have hsem : 0 < s.sem c := by rw [(hinv c).1]; exact hpos
  unfold step
  rw [hi]
  simp only [if_pos hsem]
  rfl

theorem semEvents_withSlot (c : OpClass) (r : HandlerResult) (body : List Event)
    (hbody : semEvents body = []) (hr : r ≠ .diverged) :
    semEvents (withSlot c r body) = [.semAcquire c, .semRelease c] := by
  have happ : ∀ (xs ys : List Event), semEvents (xs ++ ys) = semEvents xs ++ semEvents ys := by
    intro xs ys
    induction xs with
    | nil => simp [semEvents]
    | cons x xs ih => cases x <;> simp [semEvents, ih]
  unfold withSlot
  rw [happ, happ, hbody, if_neg hr]
  simp [semEvents]

theorem semEvents_UploadFile {σ τ : Type} (fs : FileStorage σ τ) (svc : FileStorageService)
    (st : σ) (stream : List RecvResult) (closeErr : Option String) :
    semEvents (UploadFile fs svc st stream closeErr).events =
      [.semAcquire .upload, .semRelease .upload] := by
  unfold UploadFile
  rcases uploadLoop stream "" [] with ⟨code, msg⟩ | ⟨fn, data⟩
  · exact semEvents_withSlot _ _ _ rfl (by simp)
  · simp only
    rcases fs.SaveFile st fn data with ⟨st1, _ | err⟩
    · cases closeErr
      · exact semEvents_withSlot _ _ _ rfl (by simp)
      · exact semEvents_withSlot _ _ _ rfl (by simp)
    · exact semEvents_withSlot _ _ _ rfl (by simp)

theorem semEvents_DownloadFile {σ τ : Type} (fs : FileStorage σ τ) (svc : FileStorageService)
    (st : σ) (req : DownloadRequest) (send : Nat → Option String) (fuel : Nat)
    (h : (DownloadFile fs svc st req send fuel).result ≠ .diverged) :
    semEvents (DownloadFile fs svc st req send fuel).events =
      [.semAcquire .download, .semRelease .download] := by
  unfold DownloadFile at h ⊢
  split
  · exact semEvents_withSlot _ _ _ rfl (by simp)
  · rename_i hne
    rw [if_neg hne] at h
    cases hg : fs.GetFile st req.filename with
    | error e =>
      simp only [hg] at h ⊢
      exact semEvents_withSlot _ _ _ rfl h
    | ok data =>
      simp only [hg] at h ⊢
      exact semEvents_withSlot _ _ _ rfl h

theorem semEvents_ListFiles {σ τ : Type} (fs : FileStorage σ τ) (svc : FileStorageService)
    (st : σ) (fmt : τ → String) :
    semEvents (ListFiles fs svc st fmt).events = [.semAcquire .list, .semRelease .list] := by
  unfold ListFiles
  cases fs.ListFiles st with
  | error e => exact semEvents_withSlot _ _ _ rfl (by simp)
  | ok files => exact semEvents_withSlot _ _ _ rfl (by simp)

theorem waitingUploadState_eq :
    waitingUploadState =
      ⟨true, 1, 0, 0, [⟨.upload, .running⟩, ⟨.upload, .lockHeld⟩, ⟨.download, .entry⟩]⟩ := by
  decide

theorem waitingUploadState_stuck (i : Nat) (hi : i ≠ 0) :
    step oneSlotService waitingUploadState i = none := by
  rw [waitingUploadState_eq]
  match i, hi with
  | 0, h => exact absurd rfl h
  | 1, _ => decide
  | 2, _ => decide
  | n + 3, _ => simp [step]

theorem waitingUploadState_stays (sched : List Nat) (h : 0 ∉ sched) :
    exec oneSlotService waitingUploadState sched = waitingUploadState := by
  induction sched with
  | nil => rfl
  | cons i rest ih =>
    have hi : i ≠ 0 := fun h0 => h (by simp [h0])
    have hr : 0 ∉ rest := fun h0 => h (List.mem_cons_of_mem _ h0)
    rw [exec, waitingUploadState_stuck i hi]
    exact ih hr

/-! ## Admission control: claims -/

/-- C9, counterexample. With one slot per class: the first upload runs with
the upload slot, the second upload has locked the service mutex and waits for
the slot, and a download is at its entry. No download holds a slot and the
download limit is 1, yet the download has no step, and it has none after any
schedule in which the running upload does not release. -/
theorem download_blocked_behind_waiting_upload :
    waitingUploadState.threads =
      [⟨.upload, .running⟩, ⟨.upload, .lockHeld⟩, ⟨.download, .entry⟩] ∧
    holders .download waitingUploadState = 0 ∧
    holders .download waitingUploadState < oneSlotService.cap .download ∧
    step oneSlotService waitingUploadState 2 = none ∧
    (¬ ∃ sched, 0 ∉ sched ∧
      (step oneSlotService (exec oneSlotService waitingUploadState sched) 2).isSome = true) := by
  refine ⟨by decide, by decide, by decide, by decide, ?_⟩
  rintro ⟨sched, h0, hs⟩
  rw [waitingUploadState_stays sched h0, waitingUploadState_stuck 2 (by decide)] at hs
  cases hs

/-- C9, as amended. In every reachable state in which fewer than the limit
of class `c` calls hold a slot of that class, a new call of class `c` at its
entry acquires its slot in its next two steps (lock, channel send) when the
service mutex is free, whatever the calls of the other classes hold, and the
other classes' counts are unchanged; when the mutex is held it has no step. -/
theorem acquire_when_mutex_free (svc : FileStorageService) (ops : List OpClass)
    (sched : List Nat) (i : Nat) (c : OpClass)
    (hi : (exec svc (initState ops) sched).threads.get? i = some ⟨c, .entry⟩)
    (hfree : holders c (exec svc (initState ops) sched) < svc.cap c) :
    ((exec svc (initState ops) sched).muHeld = false →
      ∃ s1 s2, step svc (exec svc (initState ops) sched) i = some s1 ∧
        step svc s1 i = some s2 ∧
        s2.threads.get? i = some ⟨c, .slotTaken⟩ ∧
        holders c s2 = holders c (exec svc (initState ops) sched) + 1 ∧
        ∀ d, d ≠ c → holders d s2 = holders d (exec svc (initState ops) sched)) ∧
    ((exec svc (initState ops) sched).muHeld = true →
      step svc (exec svc (initState ops) sched) i = none) := by
  have hinv := exec_inv svc sched _ (initState_inv svc ops)
  generalize exec svc (initState ops) sched = s at hi hfree hinv
  refine ⟨fun hmu => ?_, fun hmu => by unfold step; rw [hi]; simp [hmu]⟩
  have hlen : i < s.threads.length := by
    by_contra hge
    rw [List.get?_eq_none.mpr (by omega)] at hi
    cases hi
  have hstep1 : step svc s i =
      some { s with muHeld := true, threads := s.threads.set i ⟨c, .lockHeld⟩ } := by
    unfold step
    rw [hi]
    simp [hmu]
  have hsem : ∀ d,
      SysState.sem { s with muHeld := true, threads := s.threads.set i ⟨c, .lockHeld⟩ } d =
        s.sem d := by
    intro d; cases d <;> rfl
  have hget1 : (s.threads.set i ⟨c, .lockHeld⟩).get? i = some ⟨c, .lockHeld⟩ := by
    rw [List.get?_eq_getElem?, List.getElem?_set_self]
    simp [hlen]
  have hlt : s.sem c < svc.cap c := by rw [(hinv c).1]; exact hfree
  obtain ⟨s2, hstep2⟩ : ∃ s2,
      step svc { s with muHeld := true, threads := s.threads.set i ⟨c, .lockHeld⟩ } i =
        some s2 := by
    unfold step
    simp only [hget1, hsem, if_pos hlt]
    exact ⟨_, rfl⟩
  have hinv1 := step_inv svc _ _ i hstep1 hinv
  have hinv2 := step_inv svc _ _ i hstep2 hinv1
  have hs2 : s2 =
      { (SysState.setSem
          { s with muHeld := true, threads := s.threads.set i ⟨c, .lockHeld⟩ } c (s.sem c + 1)) with
        threads := (s.threads.set i ⟨c, .lockHeld⟩).set i ⟨c, .slotTaken⟩ } := by
    unfold step at hstep2
    simp only [hget1, hsem, if_pos hlt, Option.some.injEq] at hstep2
    exact hstep2.symm
  have hsem2 : ∀ d, s2.sem d = if d = c then s.sem c + 1 else s.sem d := by
    intro d
    rw [hs2]
    cases c <;> cases d <;> simp [SysState.setSem, SysState.sem]
  refine ⟨_, s2, hstep1, hstep2, ?_, ?_, ?_⟩
  · rw [hs2]
    show ((s.threads.set i ⟨c, .lockHeld⟩).set i ⟨c, .slotTaken⟩).get? i = _
    rw [List.get?_eq_getElem?, List.getElem?_set_self]
    simp [hlen]
  · rw [← (hinv2 c).1, hsem2 c, if_pos rfl, (hinv c).1]
  · intro d hd
    rw [← (hinv2 d).1, hsem2 d, if_neg hd, (hinv d).1]

theorem acquire_when_mutex_free_witness :
    ∃ s1 s2,
      step oneSlotService
        (exec oneSlotService (initState [.upload, .download]) [0, 0, 0]) 1 = some s1 ∧
      step oneSlotService s1 1 = some s2 ∧
      s2.threads.get? 1 = some ⟨.download, .slotTaken⟩ ∧
      holders .download s2 =
        holders .download (exec oneSlotService (initState [.upload, .download]) [0, 0, 0]) + 1 ∧
      ∀ d, d ≠ OpClass.download → holders d s2 =
        holders d (exec oneSlotService (initState [.upload, .download]) [0, 0, 0]) :=
  (acquire_when_mutex_free oneSlotService [.upload, .download] [0, 0, 0] 1 .download
    (by decide) (by decide)).1 (by decide)

/-- C10. In every state reached by any schedule of any calls, the calls of a
class that hold a slot are as many as the items in the channel of the class and
at most its limit; a call in its body can always take its releasing step.
Every `UploadFile` and `ListFiles` call, and every `DownloadFile` call that
ends, performs exactly one acquire followed by exactly one release of the
semaphore of its own class, whatever its result. -/
theorem slots_bounded_and_released_once {σ τ : Type} (svc : FileStorageService)
    (ops : List OpClass) (sched : List Nat) (c : OpClass)
    (fs : FileStorage σ τ) (st : σ) (stream : List RecvResult) (closeErr : Option String)
    (req : DownloadRequest) (send : Nat → Option String) (fuel : Nat) (fmt : τ → String) :
    holders c (exec svc (initState ops) sched) ≤ svc.cap c ∧
    (exec svc (initState ops) sched).sem c = holders c (exec svc (initState ops) sched) ∧
    (∀ i, (exec svc (initState ops) sched).threads.get? i = some ⟨c, .running⟩ →
      (step svc (exec svc (initState ops) sched) i).isSome = true) ∧
    semEvents (UploadFile fs svc st stream closeErr).events =
      [.semAcquire .upload, .semRelease .upload] ∧
    ((DownloadFile fs svc st req send fuel).result ≠ .diverged →
      semEvents (DownloadFile fs svc st req send fuel).events =
        [.semAcquire .download, .semRelease .download]) ∧
    semEvents (ListFiles fs svc st fmt).events = [.semAcquire .list, .semRelease .list] := by
  have hinv := exec_inv svc sched _ (initState_inv svc ops)
  refine ⟨?_, (hinv c).1, fun i hi => running_can_release svc _ i c hinv hi,
    semEvents_UploadFile fs svc st stream closeErr,
    semEvents_DownloadFile fs svc st req send fuel, semEvents_ListFiles fs svc st fmt⟩
  rw [← (hinv c).1]
  exact (hinv c).2


end FileService
